import Mathlib

set_option maxHeartbeats 1000000

/-!
Verification of the `urlparse` processor
(`libbeat/processors/urlparse/urlparse.go`).

The processor reads a field of an event, parses it as a URL and writes the
decomposed components back into the event, for a configured list of
`from`/`to` field mappings, under an `ignore_missing` and a `fail_on_error`
policy.
-/

/-- Modelled from the spec: event field values are dynamically typed —
strings, numbers, nested mappings (the event abstraction `common.MapStr`
is not part of the sources under verification). -/
inductive Value where
  | str : String → Value
  | int : Int → Value
  | map : List (String × Value) → Value

/-- The event's field container: a mapping from keys to values
(`common.MapStr`, represented as an association list with unique keys). -/
abbrev MapStr := List (String × Value)

/-- Key lookup in one level of the field container. -/
def lookupKey (k : String) : MapStr → Option Value
  | [] => none
  | (k2, v) :: rest => if k2 = k then some v else lookupKey k rest

/-- Key update in one level of the field container: replace an existing
binding in place, or append a fresh one. -/
def setKey (k : String) (v : Value) : MapStr → MapStr
  | [] => [(k, v)]
  | (k2, v2) :: rest => if k2 = k then (k, v) :: rest else (k2, v2) :: setKey k v rest

/-- The two ways a dotted-path lookup can fail: the key is absent
(`common.ErrKeyNotFound`), or a path segment traverses a value that is
not a mapping (the `expected map` error of the event container). -/
inductive GetErr where
  | keyNotFound : GetErr
  | notAMap : GetErr
deriving Repr, DecidableEq

/-- Modelled from the spec: dotted-path lookup on the event
(`event.GetValue`, backed by `common.MapStr.GetValue`): walk the path
segments through nested mappings; a missing key yields `keyNotFound`,
an intermediate non-mapping value yields `notAMap`. -/
def getPath : List String → MapStr → Except GetErr Value
  | [], _ => Except.error GetErr.keyNotFound
  | k :: ks, m =>
      match ks with
      | [] =>
          match lookupKey k m with
          | some v => Except.ok v
          | none => Except.error GetErr.keyNotFound
      | _ :: _ =>
          match lookupKey k m with
          | none => Except.error GetErr.keyNotFound
          | some (Value.map inner) => getPath ks inner
          | some _ => Except.error GetErr.notAMap

/-- Modelled from the spec: dotted-path write on the event
(`event.PutValue`, backed by `common.MapStr.Put`): walk the path
segments, creating missing intermediate mappings; fails (returns `none`)
only when an intermediate path segment holds a non-mapping value. -/
def putPath : List String → Value → MapStr → Option MapStr
  | [], _, _ => none
  | k :: ks, v, m =>
      match ks with
      | [] => some (setKey k v m)
      | _ :: _ =>
          match lookupKey k m with
          | none => (putPath ks v []).map fun inner => setKey k (Value.map inner) m
          | some (Value.map m2) => (putPath ks v m2).map fun inner => setKey k (Value.map inner) m
          | some _ => none

/-- Split a character list at every dot, mirroring the segment-by-segment
walk of the event container's dotted-path operations. -/
def splitOnDot : List Char → List (List Char)
  | [] => [[]]
  | c :: rest =>
      match splitOnDot rest with
      | [] => [[]]
      | seg :: segs => if c == '.' then [] :: seg :: segs else (c :: seg) :: segs

/-- A dotted field path, as the list of its segments. -/
def splitPath (s : String) : List String := (splitOnDot s.toList).map String.mk

/-! ### The URL parser, modelled from the spec

The processor delegates URL decomposition to the standard library's
permissive parser (`net/url`), which is not part of the sources under
verification.  The spec describes it as: decompose into scheme, opaque,
hostname, port, path, raw path, raw query and fragment; scheme optional;
most strings parse successfully; only structurally invalid constructs
such as malformed percent-escapes or invalid port numbers fail. -/

/-- Modelled from the spec: the parser's result — scheme, opaque part,
host (possibly carrying a port), decoded path, raw path, raw query and
decoded fragment, all strings, all possibly empty. -/
structure GoURL where
  scheme : String
  opq : String
  host : String
  path : String
  rawPath : String
  rawQuery : String
  fragment : String
deriving Repr, DecidableEq

/-- Cut a character list at the first occurrence of a separator; the
second component tells whether the separator occurred. -/
def cutChar (c : Char) : List Char → (List Char × Option (List Char))
  | [] => ([], none)
  | x :: rest =>
      if x == c then ([], some rest)
      else
        let r := cutChar c rest
        (x :: r.1, r.2)

/-- Take characters until the predicate holds; also return the remainder
(beginning with the stopping character, when any). -/
def spanTill (stop : Char → Bool) : List Char → (List Char × List Char)
  | [] => ([], [])
  | x :: rest =>
      if stop x then ([], x :: rest)
      else
        let r := spanTill stop rest
        (x :: r.1, r.2)

/-- Does the first list lead the second (initial-segment test)? -/
def listLeads : List Char → List Char → Bool
  | [], _ => true
  | _ :: _, [] => false
  | a :: as, b :: bs => a == b && listLeads as bs

def isHexDigit (c : Char) : Bool :=
  c.isDigit || ('a' ≤ c && c ≤ 'f') || ('A' ≤ c && c ≤ 'F')

def hexVal (c : Char) : Nat :=
  if c.isDigit then c.toNat - 48
  else if 'a' ≤ c then c.toNat - 87
  else c.toNat - 55

/-- Percent-decoding: every `%` must be followed by two hex digits,
otherwise decoding fails (the parser's `invalid URL escape` error). -/
def unescapeList : List Char → Option (List Char)
  | [] => some []
  | '%' :: a :: b :: rest =>
      if isHexDigit a && isHexDigit b then
        (unescapeList rest).map fun r => Char.ofNat (16 * hexVal a + hexVal b) :: r
      else none
  | '%' :: _ => none
  | c :: rest => (unescapeList rest).map fun r => c :: r

/-- Characters the path encoder leaves unescaped. -/
def pathUnreserved (c : Char) : Bool :=
  c.isAlpha || c.isDigit ||
  c == '-' || c == '_' || c == '.' || c == '~' ||
  c == '$' || c == '&' || c == '+' || c == ',' || c == '/' ||
  c == ':' || c == ';' || c == '=' || c == '@' || c.toNat ≥ 128

def hexDigitUpper (n : Nat) : Char :=
  if n < 10 then Char.ofNat (48 + n) else Char.ofNat (55 + n)

/-- Re-encode a decoded path, used for the raw-path convention. -/
def escapePathList : List Char → List Char
  | [] => []
  | c :: rest =>
      if pathUnreserved c then c :: escapePathList rest
      else '%' :: hexDigitUpper (c.toNat / 16 % 16) :: hexDigitUpper (c.toNat % 16) :: escapePathList rest

/-- The raw-path convention: the decoded path, and the raw form only when
it differs from the canonical re-encoding of the decoded form. -/
def setPathParts (raw : List Char) : Option (String × String) :=
  (unescapeList raw).map fun dec =>
    let rawS := String.mk raw
    (String.mk dec, if String.mk (escapePathList dec) == rawS then "" else rawS)

def isSchemeTailChar (c : Char) : Bool :=
  c.isDigit || c == '+' || c == '-' || c == '.'

/-- Scheme extraction: a leading alphabetic character followed by
alphanumerics or `+`/`-`/`.` up to a colon; a string starting with a
colon is malformed; anything else means no scheme at all. -/
def getSchemeAux (orig : List Char) (seen : List Char) : List Char → Except String (String × List Char)
  | [] => Except.ok ("", orig)
  | c :: rest =>
      if c.isAlpha then getSchemeAux orig (seen ++ [c]) rest
      else if c == ':' then
        if seen.isEmpty then Except.error "missing protocol scheme"
        else Except.ok (String.mk (seen.map Char.toLower), rest)
      else if isSchemeTailChar c && !seen.isEmpty then getSchemeAux orig (seen ++ [c]) rest
      else Except.ok ("", orig)

/-- Strip the userinfo part of an authority: everything up to and
including the last `@`. -/
def hostAfterUser (auth : List Char) : List Char :=
  let r := auth.reverse
  let h := r.takeWhile (fun c => c != '@')
  if h.length == auth.length then auth else h.reverse

/-- Characters acceptable unescaped inside a host. -/
def hostCharOk (c : Char) : Bool :=
  c.isAlpha || c.isDigit ||
  c == '-' || c == '_' || c == '.' || c == '~' ||
  c == '!' || c == '$' || c == '&' || c.toNat == 39 || c == '(' || c == ')' ||
  c == '*' || c == '+' || c == ',' || c == ';' || c == '=' ||
  c == ':' || c == '[' || c == ']' || c == '<' || c == '>' || c.toNat == 34 ||
  c == '%' || c.toNat ≥ 128

/-- Port validation inside an authority: after the last colon (outside a
bracketed host) only digits may appear. -/
def hostPortValid (host : List Char) : Bool :=
  if host.head? == some '[' then
    let afterRev := host.reverse.takeWhile (fun c => c != ']')
    if afterRev.length == host.length then false
    else
      match afterRev.reverse with
      | [] => true
      | ':' :: p => p.all Char.isDigit
      | _ => false
  else
    let tl := host.reverse.takeWhile (fun c => c != ':')
    tl.length == host.length || tl.all Char.isDigit

/-- Authority parsing: strip userinfo, validate the port and the host
characters, percent-decode the host. -/
def parseAuthority (auth : List Char) : Option String :=
  let host := hostAfterUser auth
  if hostPortValid host && host.all hostCharOk then
    (unescapeList host).map String.mk
  else none

/-- Split a stored host into hostname and port: the part after the last
colon is the port when it is all digits; brackets around the hostname
are stripped. -/
def splitHostPort (hp : String) : String × String :=
  let l := hp.toList
  let tl := l.reverse.takeWhile (fun c => c != ':')
  let valid := tl.all Char.isDigit && tl.length < l.length
  let hostL := if valid then (l.reverse.drop (tl.length + 1)).reverse else l
  let portL := if valid then tl.reverse else []
  let hostL2 :=
    if hostL.head? == some '[' && hostL.getLast? == some ']' then
      (hostL.drop 1).dropLast
    else hostL
  (String.mk hostL2, String.mk portL)

/-- Modelled from the spec: the standard library URL parser.  Cuts the
fragment at the first `#`, extracts an optional scheme, cuts the raw
query at the first `?`, then reads either an opaque part (scheme
present, no leading slash), or an authority after `//` followed by a
path, or a bare path; percent-decodes path, fragment and host; fails on
a string starting with a colon, a colon inside the first path segment of
a scheme-less URL, an invalid port, an invalid host character or a
malformed percent-escape. -/
def urlParse (s : String) : Except String GoURL := do
  let l := s.toList
  let (beforeFrag, fragPart) := cutChar '#' l
  let frag ← match fragPart with
    | none => pure ""
    | some f =>
        match unescapeList f with
        | some d => pure (String.mk d)
        | none => Except.error "invalid URL escape"
  let (scheme, rest0) ← getSchemeAux beforeFrag [] beforeFrag
  let (rest1, qPart) := cutChar '?' rest0
  let rawQuery := match qPart with
    | none => ""
    | some q => String.mk q
  if !listLeads ['/'] rest1 && scheme != "" then
    pure { scheme := scheme, opq := String.mk rest1, host := "", path := "",
           rawPath := "", rawQuery := rawQuery, fragment := frag }
  else
    if !listLeads ['/'] rest1 &&
        !((spanTill (fun c => c == '/') rest1).1.all (fun c => c != ':')) then
      Except.error "first path segment in URL cannot contain colon"
    else
      let (host?, pathPart) ←
        if (scheme != "" || !listLeads ['/', '/', '/'] rest1) && listLeads ['/', '/'] rest1 then
          let (auth, after) := spanTill (fun c => c == '/') (rest1.drop 2)
          match parseAuthority auth with
          | some h => pure (some h, after)
          | none => Except.error "invalid host"
        else
          pure (none, rest1)
      match setPathParts pathPart with
      | none => Except.error "invalid URL escape"
      | some (p, rp) =>
          pure { scheme := scheme, opq := "", host := host?.getD "",
                 path := p, rawPath := rp, rawQuery := rawQuery, fragment := frag }

/-! ### The processor (`urlparse.go`) -/

/-- One configured field mapping (`fromTo`): source path `From`, optional
destination path `To`. -/
structure FromTo where
  From : String
  To : String
deriving Repr, DecidableEq

/-- The processor's validated configuration (`urlParseConfig`). -/
structure UrlParseConfig where
  Fields : List FromTo
  IgnoreMissing : Bool
  FailOnError : Bool
deriving Repr, DecidableEq

/-- The failures one field mapping can produce (`parseField`'s error
return): a failed lookup of `from`, a non-string value, a URL syntax
error, or a failed write of the decomposition. -/
inductive FieldError where
  | fetchFail : String → GetErr → FieldError
  | typeMismatch : FieldError
  | urlSyntax : String → String → FieldError
  | putFail : String → FieldError
deriving Repr, DecidableEq

/-- The value written at the `to` path: a mapping with exactly the eight
keys `scheme`, `opaque`, `hostname`, `port`, `path`, `raw_path`,
`raw_query`, `fragment` (the `common.MapStr` literal in `parseField`). -/
def urlComponents (u : GoURL) : Value :=
  Value.map [
    ("scheme", Value.str u.scheme),
    ("opaque", Value.str u.opq),
    ("hostname", Value.str (splitHostPort u.host).1),
    ("port", Value.str (splitHostPort u.host).2),
    ("path", Value.str u.path),
    ("raw_path", Value.str u.rawPath),
    ("raw_query", Value.str u.rawQuery),
    ("fragment", Value.str u.fragment)]

/-- `parseField` from `urlparse.go`: fetch `from` (a key-not-found
failure is silently ignored when `ignore_missing` is set), require a
string, URL-parse it, and write the eight components at `to`
(defaulting to `from` when `to` is empty). -/
def parseField (cfg : UrlParseConfig) (frm tgt : String) (fields : MapStr) : Except FieldError MapStr :=
  match getPath (splitPath frm) fields with
  | Except.error e =>
      if cfg.IgnoreMissing && e == GetErr.keyNotFound then Except.ok fields
      else Except.error (FieldError.fetchFail frm e)
  | Except.ok (Value.str s) =>
      match urlParse s with
      | Except.error msg => Except.error (FieldError.urlSyntax s msg)
      | Except.ok u =>
          let target := if tgt = "" then frm else tgt
          match putPath (splitPath target) (urlComponents u) fields with
          | some m2 => Except.ok m2
          | none => Except.error (FieldError.putFail target)
  | Except.ok _ => Except.error FieldError.typeMismatch

/-- The message text attached to the originating error of a mapping
(the formatted error strings of `parseField`). -/
def fieldErrString : FieldError → String
  | FieldError.fetchFail k _ => "could not fetch value for key: " ++ k
  | FieldError.typeMismatch => "invalid type for `from`, expecting a string"
  | FieldError.urlSyntax s m => "error trying to URL-parse " ++ s ++ ": " ++ m
  | FieldError.putFail t => "could not put value: " ++ t

/-- The diagnostic message `Run` attaches at `error.message`. -/
def runErrMsg (e : FieldError) : String :=
  "failed to parse fields in urlparse processor: " ++ fieldErrString e

/-- A write whose own failure is discarded (`Run` ignores the return of
`event.PutValue("error.message", ...)`). -/
def putIgnoreErr (p : String) (v : Value) (m : MapStr) : MapStr :=
  match putPath (splitPath p) v m with
  | some m2 => m2
  | none => m

/-- The loop body of `Run`: process the mappings in configured order; on
a mapping's failure, either restore the backup, attach the diagnostic
and stop (`fail_on_error` true), or keep going with the current fields
(`fail_on_error` false). -/
def runLoop (cfg : UrlParseConfig) (backup : MapStr) : List FromTo → MapStr → MapStr × Option FieldError
  | [], fields => (fields, none)
  | ft :: rest, fields =>
      match parseField cfg ft.From ft.To fields with
      | Except.ok f2 => runLoop cfg backup rest f2
      | Except.error e =>
          if cfg.FailOnError then
            (putIgnoreErr "error.message" (Value.str (runErrMsg e)) backup, some e)
          else runLoop cfg backup rest fields

/-- `Run` from `urlparse.go`, on the event's field container: the backup
taken before any mutation is the untouched input value. -/
def run (cfg : UrlParseConfig) (fields : MapStr) : MapStr × Option FieldError :=
  runLoop cfg fields cfg.Fields fields

/-- The resolved destination of a mapping: `to`, defaulting to `from`
when `to` is empty. -/
def resolveTo (ft : FromTo) : String := if ft.To = "" then ft.From else ft.To

/-! ### The configuration resolver (`New` plus the registered checks) -/

/-- Modelled from the spec: one entry of the raw `fields` option, whose
`from` and `to` keys may each be absent (the raw-configuration
machinery `common.Config`/`Unpack` is not part of the sources under
verification). -/
structure RawFieldEntry where
  fromKey : Option String
  toKey : Option String
deriving Repr, DecidableEq

/-- Modelled from the spec: a raw configuration — the set of keys it
carries, and the typed values of the recognized options when present. -/
structure RawConfig where
  keys : List String
  fieldsOpt : Option (List RawFieldEntry)
  ignoreMissingOpt : Option Bool
  failOnErrorOpt : Option Bool
deriving Repr, DecidableEq

/-- The recognized configuration keys (`checks.AllowedFields`). -/
def allowedKeys : List String := ["fields", "ignore_missing", "fail_on_error"]

/-- Modelled from the spec: construction (`New` together with the
`RequireFields`/`AllowedFields` checks registered for the processor):
reject unknown keys, reject an absent or empty `fields` list or an entry
lacking `from`; default `ignore_missing` to false and `fail_on_error`
to true. -/
def newProcessor (c : RawConfig) : Except String UrlParseConfig :=
  if ¬ (∀ k ∈ c.keys, k ∈ allowedKeys) then
    Except.error "unexpected key in configuration"
  else
    match c.fieldsOpt with
    | none => Except.error "missing required option fields"
    | some [] => Except.error "empty fields option"
    | some entries =>
        if ∀ e ∈ entries, e.fromKey.isSome = true then
          Except.ok
            { Fields := entries.map (fun e => { From := e.fromKey.getD "", To := e.toKey.getD "" }),
              IgnoreMissing := c.ignoreMissingOpt.getD false,
              FailOnError := c.failOnErrorOpt.getD true }
        else Except.error "missing required setting from"

/-! ### Path separation -/

/-- Is the first segment list an initial segment of the second? -/
def pathLe : List String → List String → Bool
  | [], _ => true
  | _ :: _, [] => false
  | a :: as, b :: bs => a == b && pathLe as bs

/-- Two dotted paths overlap when one is an initial segment of the other
(then a write at one can change a read or a write at the other). -/
def pathsOverlap (p q : List String) : Bool := pathLe p q || pathLe q p

/-- The URL every empty string parses to: all components empty. -/
def emptyGoURL : GoURL :=
  { scheme := "", opq := "", host := "", path := "", rawPath := "", rawQuery := "", fragment := "" }

/-- Spec-side description of best-effort mode (`fail_on_error` false):
apply every mapping that succeeds, in configured order, and skip every
mapping that fails. -/
def bestEffort (cfg : UrlParseConfig) : List FromTo → MapStr → MapStr
  | [], m => m
  | ft :: rest, m =>
      match parseField cfg ft.From ft.To m with
      | Except.ok f2 => bestEffort cfg rest f2
      | Except.error _ => bestEffort cfg rest m

/-! ### Lemmas about the field container -/

theorem lookupKey_setKey_self (k : String) (v : Value) (m : MapStr) :
    lookupKey k (setKey k v m) = some v := by
  induction m with
  | nil => simp [setKey, lookupKey]
  | cons hd tl ih =>
      obtain ⟨k2, v2⟩ := hd
      by_cases h : k2 = k
      · subst h; simp [setKey, lookupKey]
      · simp [setKey, lookupKey, h, ih]

theorem lookupKey_setKey_ne (a b : String) (v : Value) (m : MapStr) (h : b ≠ a) :
    lookupKey a (setKey b v m) = lookupKey a m := by
  induction m with
  | nil => simp [setKey, lookupKey, h]
  | cons hd tl ih =>
      obtain ⟨k2, v2⟩ := hd
      by_cases h2 : k2 = b
      · subst h2; simp [setKey, lookupKey, h]
      · simp [setKey, lookupKey, h2, ih]

theorem setKey_of_lookupKey (k : String) (v : Value) (m : MapStr)
    (h : lookupKey k m = some v) : setKey k v m = m := by
  induction m with
  | nil => simp [lookupKey] at h
  | cons hd tl ih =>
      obtain ⟨k2, v2⟩ := hd
      by_cases h2 : k2 = k
      · subst h2
        simp [lookupKey] at h
        simp [setKey, h]
      · simp [lookupKey, h2] at h
        simp [setKey, h2, ih h]

theorem pathsOverlap_symm (p q : List String) : pathsOverlap p q = pathsOverlap q p := by
  simp [pathsOverlap, Bool.or_comm]

theorem pathsOverlap_cons_same (k : String) (p q : List String) :
    pathsOverlap (k :: p) (k :: q) = pathsOverlap p q := by
  simp [pathsOverlap, pathLe]

theorem getPath_cons_nil (a : String) (b : List String) :
    getPath (a :: b) [] = Except.error GetErr.keyNotFound := by
  cases b <;> simp [getPath, lookupKey]

theorem getPath_putPath_disjoint :
    ∀ (q p : List String) (v : Value) (m m2 : MapStr),
      pathsOverlap p q = false → putPath q v m = some m2 →
      getPath p m2 = getPath p m := by
  intro q
  induction q with
  | nil => intro p v m m2 hd hput; simp [putPath] at hput
  | cons kq q2 ih =>
    intro p v m m2 hd hput
    cases q2 with
    | nil =>
      simp only [putPath, Option.some.injEq] at hput
      subst hput
      cases p with
      | nil => rfl
      | cons kp p2 =>
        have hk : kq ≠ kp := by
          intro h; subst h
          cases p2 with
          | nil => simp [pathsOverlap, pathLe] at hd
          | cons a b => simp [pathsOverlap, pathLe] at hd
        cases p2 with
        | nil => simp [getPath, lookupKey_setKey_ne kp kq v m hk]
        | cons a b => simp [getPath, lookupKey_setKey_ne kp kq v m hk]
    | cons kq2 q3 =>
      simp only [putPath] at hput
      cases p with
      | nil => rfl
      | cons kp p2 =>
        by_cases hk : kq = kp
        · subst hk
          cases p2 with
          | nil => simp [pathsOverlap, pathLe] at hd
          | cons a b =>
            rw [pathsOverlap_cons_same] at hd
            cases hlook : lookupKey kq m with
            | none =>
              simp only [hlook] at hput
              rw [Option.map_eq_some'] at hput
              obtain ⟨inner, hinner, rfl⟩ := hput
              simp only [getPath, lookupKey_setKey_self, hlook]
              have h5 := ih (a :: b) v [] inner hd hinner
              rw [getPath_cons_nil] at h5
              exact h5
            | some w =>
              cases w with
              | map minner =>
                simp only [hlook] at hput
                rw [Option.map_eq_some'] at hput
                obtain ⟨inner, hinner, rfl⟩ := hput
                simp only [getPath, lookupKey_setKey_self, hlook]
                exact ih (a :: b) v minner inner hd hinner
              | str s => simp [hlook] at hput
              | int n => simp [hlook] at hput
        · have hm2 : ∃ inner, m2 = setKey kq (Value.map inner) m := by
            cases hlook : lookupKey kq m with
            | none =>
              simp only [hlook] at hput
              rw [Option.map_eq_some'] at hput
              obtain ⟨inner, _, rfl⟩ := hput
              exact ⟨inner, rfl⟩
            | some w =>
              cases w with
              | map minner =>
                simp only [hlook] at hput
                rw [Option.map_eq_some'] at hput
                obtain ⟨inner, _, rfl⟩ := hput
                exact ⟨inner, rfl⟩
              | str s => simp [hlook] at hput
              | int n => simp [hlook] at hput
          obtain ⟨inner, rfl⟩ := hm2
          cases p2 with
          | nil => simp [getPath, lookupKey_setKey_ne kp kq (Value.map inner) m hk]
          | cons a b => simp [getPath, lookupKey_setKey_ne kp kq (Value.map inner) m hk]

theorem getPath_putPath_self :
    ∀ (p : List String) (v : Value) (m m2 : MapStr),
      putPath p v m = some m2 → getPath p m2 = Except.ok v := by
  intro p
  induction p with
  | nil => intro v m m2 h; simp [putPath] at h
  | cons k p2 ih =>
    intro v m m2 h
    cases p2 with
    | nil =>
      simp only [putPath, Option.some.injEq] at h
      subst h
      simp [getPath, lookupKey_setKey_self]
    | cons a b =>
      simp only [putPath] at h
      cases hlook : lookupKey k m with
      | none =>
        simp only [hlook] at h
        rw [Option.map_eq_some'] at h
        obtain ⟨inner, hinner, rfl⟩ := h
        simp only [getPath, lookupKey_setKey_self]
        exact ih v [] inner hinner
      | some w =>
        cases w with
        | map minner =>
          simp only [hlook] at h
          rw [Option.map_eq_some'] at h
          obtain ⟨inner, hinner, rfl⟩ := h
          simp only [getPath, lookupKey_setKey_self]
          exact ih v minner inner hinner
        | str s => simp [hlook] at h
        | int n => simp [hlook] at h

theorem putPath_of_getPath :
    ∀ (p : List String) (v : Value) (m : MapStr),
      getPath p m = Except.ok v → putPath p v m = some m := by
  intro p
  induction p with
  | nil => intro v m h; simp [getPath] at h
  | cons k p2 ih =>
    intro v m h
    cases p2 with
    | nil =>
      simp only [getPath] at h
      cases hlook : lookupKey k m with
      | none => simp [hlook] at h
      | some w =>
        simp only [hlook, Except.ok.injEq] at h
        subst h
        simp [putPath, setKey_of_lookupKey k w m hlook]
    | cons a b =>
      simp only [getPath] at h
      cases hlook : lookupKey k m with
      | none => simp [hlook] at h
      | some w =>
        cases w with
        | map minner =>
          simp only [hlook] at h
          have h2 := ih v minner h
          have h3 : setKey k (Value.map minner) m = m :=
            setKey_of_lookupKey k (Value.map minner) m hlook
          rw [putPath]
          simp only [hlook]
          rw [h2]
          simp [h3]
        | str s => simp [hlook] at h
        | int n => simp [hlook] at h

theorem putPath_putPath_disjoint_isSome :
    ∀ (q p : List String) (w v : Value) (m m2 : MapStr),
      pathsOverlap p q = false → putPath q w m = some m2 →
      (putPath p v m2).isSome = (putPath p v m).isSome := by
  intro q
  induction q with
  | nil => intro p w v m m2 hd hput; simp [putPath] at hput
  | cons kq q2 ih =>
    intro p w v m m2 hd hput
    cases q2 with
    | nil =>
      simp only [putPath, Option.some.injEq] at hput
      subst hput
      cases p with
      | nil => rfl
      | cons kp p2 =>
        have hk : kq ≠ kp := by
          intro h; subst h
          cases p2 with
          | nil => simp [pathsOverlap, pathLe] at hd
          | cons a b => simp [pathsOverlap, pathLe] at hd
        cases p2 with
        | nil => simp [putPath]
        | cons a b =>
          simp only [putPath, lookupKey_setKey_ne kp kq w m hk]
          cases hlk : lookupKey kp m with
          | none => simp [Option.isSome_map']
          | some u => cases u <;> simp [Option.isSome_map']
    | cons kq2 q3 =>
      simp only [putPath] at hput
      cases p with
      | nil => rfl
      | cons kp p2 =>
        by_cases hk : kq = kp
        · subst hk
          cases p2 with
          | nil => simp [putPath]
          | cons a b =>
            rw [pathsOverlap_cons_same] at hd
            cases hlook : lookupKey kq m with
            | none =>
              simp only [hlook] at hput
              rw [Option.map_eq_some'] at hput
              obtain ⟨inner, hinner, rfl⟩ := hput
              simp only [putPath, lookupKey_setKey_self, hlook, Option.isSome_map']
              exact ih (a :: b) w v [] inner hd hinner
            | some u =>
              cases u with
              | map minner =>
                simp only [hlook] at hput
                rw [Option.map_eq_some'] at hput
                obtain ⟨inner, hinner, rfl⟩ := hput
                simp only [putPath, lookupKey_setKey_self, hlook, Option.isSome_map']
                exact ih (a :: b) w v minner inner hd hinner
              | str s => simp [hlook] at hput
              | int n => simp [hlook] at hput
        · have hm2 : ∃ inner, m2 = setKey kq (Value.map inner) m := by
            cases hlook : lookupKey kq m with
            | none =>
              simp only [hlook] at hput
              rw [Option.map_eq_some'] at hput
              obtain ⟨inner, _, rfl⟩ := hput
              exact ⟨inner, rfl⟩
            | some u =>
              cases u with
              | map minner =>
                simp only [hlook] at hput
                rw [Option.map_eq_some'] at hput
                obtain ⟨inner, _, rfl⟩ := hput
                exact ⟨inner, rfl⟩
              | str s => simp [hlook] at hput
              | int n => simp [hlook] at hput
          obtain ⟨inner, rfl⟩ := hm2
          cases p2 with
          | nil => simp [putPath]
          | cons a b =>
            simp only [putPath, lookupKey_setKey_ne kp kq (Value.map inner) m hk]
            cases hlk : lookupKey kp m with
            | none => simp [Option.isSome_map']
            | some u => cases u <;> simp [Option.isSome_map']

/-! ### Lemmas about `parseField` and `Run` -/

theorem parseField_skip (cfg : UrlParseConfig) (frm tgt : String) (m : MapStr)
    (him : cfg.IgnoreMissing = true)
    (hmiss : getPath (splitPath frm) m = Except.error GetErr.keyNotFound) :
    parseField cfg frm tgt m = Except.ok m := by
  unfold parseField
  simp [hmiss, him]

theorem parseField_ok_cases (cfg : UrlParseConfig) (ft : FromTo) (m m2 : MapStr)
    (h : parseField cfg ft.From ft.To m = Except.ok m2) :
    (m2 = m ∧ cfg.IgnoreMissing = true ∧
      getPath (splitPath ft.From) m = Except.error GetErr.keyNotFound) ∨
    ∃ s u, getPath (splitPath ft.From) m = Except.ok (Value.str s) ∧
      urlParse s = Except.ok u ∧
      putPath (splitPath (resolveTo ft)) (urlComponents u) m = some m2 := by
  unfold parseField at h
  cases hg : getPath (splitPath ft.From) m with
  | error e =>
      simp only [hg] at h
      split at h
      · rename_i hc
        rw [Bool.and_eq_true, beq_iff_eq] at hc
        exact Or.inl ⟨(Except.ok.inj h).symm, hc.1, by rw [hc.2]⟩
      · simp at h
  | ok v =>
      cases v with
      | str s =>
          simp only [hg] at h
          cases hu : urlParse s with
          | error msg => simp [hu] at h
          | ok u =>
              simp only [hu] at h
              cases hp : putPath (splitPath (if ft.To = "" then ft.From else ft.To))
                  (urlComponents u) m with
              | none => simp only [hp] at h; simp at h
              | some mm =>
                  simp only [hp, Except.ok.injEq] at h
                  subst h
                  exact Or.inr ⟨s, u, rfl, hu, hp⟩
      | int n => simp [hg] at h
      | map mm => simp [hg] at h

theorem parseField_err_transport (cfg : UrlParseConfig) (ft : FromTo) (m m2 : MapStr)
    (e : FieldError)
    (hg : getPath (splitPath ft.From) m2 = getPath (splitPath ft.From) m)
    (hp : ∀ v : Value, (putPath (splitPath (resolveTo ft)) v m2).isSome =
        (putPath (splitPath (resolveTo ft)) v m).isSome)
    (he : parseField cfg ft.From ft.To m = Except.error e) :
    ∃ e2, parseField cfg ft.From ft.To m2 = Except.error e2 := by
  have hp2 : ∀ v : Value,
      (putPath (splitPath (if ft.To = "" then ft.From else ft.To)) v m2).isSome =
      (putPath (splitPath (if ft.To = "" then ft.From else ft.To)) v m).isSome := hp
  unfold parseField at he ⊢
  rw [hg]
  cases hget : getPath (splitPath ft.From) m with
  | error ge =>
      simp only [hget] at he ⊢
      split at he
      · simp at he
      · rename_i hcond
        rw [if_neg hcond]
        exact ⟨_, rfl⟩
  | ok v =>
      cases v with
      | str s =>
          simp only [hget] at he ⊢
          cases hu : urlParse s with
          | error msg => simp only [hu] at he ⊢; exact ⟨_, rfl⟩
          | ok u =>
              simp only [hu] at he ⊢
              cases hput : putPath (splitPath (if ft.To = "" then ft.From else ft.To))
                  (urlComponents u) m with
              | some mm => simp only [hput] at he; simp at he
              | none =>
                  have h3 := hp2 (urlComponents u)
                  rw [hput] at h3
                  have h2 : putPath (splitPath (if ft.To = "" then ft.From else ft.To))
                      (urlComponents u) m2 = none := by
                    cases hx : putPath (splitPath (if ft.To = "" then ft.From else ft.To))
                        (urlComponents u) m2 with
                    | none => rfl
                    | some y => rw [hx] at h3; simp at h3
                  simp only [h2]
                  exact ⟨_, rfl⟩
      | int n => simp only [hget] at he ⊢; exact ⟨_, rfl⟩
      | map mm => simp only [hget] at he ⊢; exact ⟨_, rfl⟩

theorem runLoop_err (cfg : UrlParseConfig) (b : MapStr) :
    ∀ (L : List FromTo) (m res : MapStr) (e : FieldError),
      cfg.FailOnError = true →
      runLoop cfg b L m = (res, some e) →
      res = putIgnoreErr "error.message" (Value.str (runErrMsg e)) b := by
  intro L
  induction L with
  | nil => intro m res e hfo h; simp [runLoop] at h
  | cons ft rest ih =>
    intro m res e hfo h
    rw [runLoop] at h
    cases hpf : parseField cfg ft.From ft.To m with
    | ok f2 =>
      simp only [hpf] at h
      exact ih f2 res e hfo h
    | error e2 =>
      simp only [hpf, hfo] at h
      simp only [if_true] at h
      obtain ⟨h1, h2⟩ := Prod.mk.injEq .. ▸ h
      obtain rfl := Option.some.inj h2
      exact h1.symm

theorem runLoop_bestEffort (cfg : UrlParseConfig) (b : MapStr)
    (hfo : cfg.FailOnError = false) :
    ∀ (L : List FromTo) (m : MapStr),
      runLoop cfg b L m = (bestEffort cfg L m, none) := by
  intro L
  induction L with
  | nil => intro m; simp [runLoop, bestEffort]
  | cons ft rest ih =>
    intro m
    rw [runLoop, bestEffort]
    cases hpf : parseField cfg ft.From ft.To m with
    | ok f2 => simp only [hpf]; exact ih f2
    | error e => simp only [hpf, hfo]; simp only [Bool.false_eq_true, if_false]; exact ih m

theorem parseField_write_eval (cfg : UrlParseConfig) (frm tgt : String) (m mm : MapStr)
    (s : String) (u : GoURL)
    (hg : getPath (splitPath frm) m = Except.ok (Value.str s))
    (hu : urlParse s = Except.ok u)
    (hp : putPath (splitPath (if tgt = "" then frm else tgt)) (urlComponents u) m = some mm) :
    parseField cfg frm tgt m = Except.ok mm := by
  unfold parseField
  simp only [hg, hu, hp]

theorem runLoop_frame (cfg : UrlParseConfig) (b : MapStr) :
    ∀ (L : List FromTo) (m : MapStr) (p : List String),
      (runLoop cfg b L m).2 = none →
      (∀ ft ∈ L, pathsOverlap p (splitPath (resolveTo ft)) = false) →
      getPath p (runLoop cfg b L m).1 = getPath p m := by
  intro L
  induction L with
  | nil => intro m p _ _; simp [runLoop]
  | cons ft rest ih =>
    intro m p hok hsep
    rw [runLoop] at hok ⊢
    cases hpf : parseField cfg ft.From ft.To m with
    | ok f2 =>
      simp only [hpf] at hok ⊢
      have hstep : getPath p f2 = getPath p m := by
        rcases parseField_ok_cases cfg ft m f2 hpf with ⟨h, -, -⟩ | ⟨s, u, -, -, hput⟩
        · rw [h]
        · exact getPath_putPath_disjoint _ p (urlComponents u) m f2
            (hsep ft (List.mem_cons_self ft rest)) hput
      rw [ih f2 p hok (fun x hx => hsep x (List.mem_cons_of_mem ft hx)), hstep]
    | error e =>
      simp only [hpf] at hok ⊢
      by_cases hfo : cfg.FailOnError = true
      · rw [if_pos hfo] at hok
        simp at hok
      · rw [if_neg hfo] at hok ⊢
        exact ih m p hok (fun x hx => hsep x (List.mem_cons_of_mem ft hx))

theorem runLoop_put_frame (cfg : UrlParseConfig) (b : MapStr) :
    ∀ (L : List FromTo) (m : MapStr) (p : List String) (v : Value),
      (runLoop cfg b L m).2 = none →
      (∀ ft ∈ L, pathsOverlap p (splitPath (resolveTo ft)) = false) →
      (putPath p v (runLoop cfg b L m).1).isSome = (putPath p v m).isSome := by
  intro L
  induction L with
  | nil => intro m p v _ _; simp [runLoop]
  | cons ft rest ih =>
    intro m p v hok hsep
    rw [runLoop] at hok ⊢
    cases hpf : parseField cfg ft.From ft.To m with
    | ok f2 =>
      simp only [hpf] at hok ⊢
      have hstep : (putPath p v f2).isSome = (putPath p v m).isSome := by
        rcases parseField_ok_cases cfg ft m f2 hpf with ⟨h, -, -⟩ | ⟨s, u, -, -, hput⟩
        · rw [h]
        · exact putPath_putPath_disjoint_isSome _ p (urlComponents u) v m f2
            (hsep ft (List.mem_cons_self ft rest)) hput
      rw [ih f2 p v hok (fun x hx => hsep x (List.mem_cons_of_mem ft hx)), hstep]
    | error e =>
      simp only [hpf] at hok ⊢
      by_cases hfo : cfg.FailOnError = true
      · rw [if_pos hfo] at hok
        simp at hok
      · rw [if_neg hfo] at hok ⊢
        exact ih m p v hok (fun x hx => hsep x (List.mem_cons_of_mem ft hx))

theorem runLoop_replay (cfg : UrlParseConfig) :
    ∀ (L : List FromTo) (b b2 m m2 : MapStr),
      runLoop cfg b L m = (m2, none) →
      (∀ a ∈ L, ∀ c ∈ L, pathsOverlap (splitPath (resolveTo a)) (splitPath c.From) = false) →
      List.Pairwise (fun a c =>
        pathsOverlap (splitPath (resolveTo a)) (splitPath (resolveTo c)) = false) L →
      runLoop cfg b2 L m2 = (m2, none) := by
  intro L
  induction L with
  | nil =>
    intro b b2 m m2 h _ _
    rw [runLoop] at h
    have h1 : m = m2 := congrArg Prod.fst h
    subst h1
    rw [runLoop]
  | cons ft rest ih =>
    intro b b2 m m2 h hsep hpw
    rw [List.pairwise_cons] at hpw
    obtain ⟨hpw1, hpw2⟩ := hpw
    have hsepR : ∀ a ∈ rest, ∀ c ∈ rest,
        pathsOverlap (splitPath (resolveTo a)) (splitPath c.From) = false :=
      fun a ha c hc => hsep a (List.mem_cons_of_mem ft ha) c (List.mem_cons_of_mem ft hc)
    have hfromsep : ∀ x ∈ ft :: rest,
        pathsOverlap (splitPath ft.From) (splitPath (resolveTo x)) = false := by
      intro x hx
      rw [pathsOverlap_symm]
      exact hsep x hx ft (List.mem_cons_self ft rest)
    rw [runLoop] at h
    cases hpf : parseField cfg ft.From ft.To m with
    | ok f2 =>
      simp only [hpf] at h
      have hok2 : (runLoop cfg b rest f2).2 = none := by rw [h]
      have hres : (runLoop cfg b rest f2).1 = m2 := by rw [h]
      have hihrest := ih b b2 f2 m2 h hsepR hpw2
      have hfr2 : getPath (splitPath ft.From) m2 = getPath (splitPath ft.From) f2 := by
        have h4 := runLoop_frame cfg b rest f2 (splitPath ft.From) hok2
          (fun x hx => hfromsep x (List.mem_cons_of_mem ft hx))
        rw [hres] at h4
        exact h4
      rcases parseField_ok_cases cfg ft m f2 hpf with ⟨hf2, him, hmiss⟩ | ⟨s, u, hgs, hu, hput⟩
      · subst hf2
        have hread : getPath (splitPath ft.From) m2 = Except.error GetErr.keyNotFound := by
          rw [hfr2, hmiss]
        rw [runLoop]
        simp only [parseField_skip cfg ft.From ft.To m2 him hread]
        exact hihrest
      · have hread : getPath (splitPath ft.From) m2 = Except.ok (Value.str s) := by
          rw [hfr2]
          rw [getPath_putPath_disjoint _ (splitPath ft.From) (urlComponents u) m f2
            (hfromsep ft (List.mem_cons_self ft rest)) hput]
          exact hgs
        have htoval : getPath (splitPath (resolveTo ft)) m2 = Except.ok (urlComponents u) := by
          have h4 := runLoop_frame cfg b rest f2 (splitPath (resolveTo ft)) hok2
            (fun x hx => hpw1 x hx)
          rw [hres] at h4
          rw [h4]
          exact getPath_putPath_self _ (urlComponents u) m f2 hput
        have hnoop : putPath (splitPath (resolveTo ft)) (urlComponents u) m2 = some m2 :=
          putPath_of_getPath _ (urlComponents u) m2 htoval
        rw [runLoop]
        simp only [parseField_write_eval cfg ft.From ft.To m2 m2 s u hread hu hnoop]
        exact hihrest
    | error e =>
      simp only [hpf] at h
      by_cases hfo : cfg.FailOnError = true
      · rw [if_pos hfo] at h
        have h5 := congrArg Prod.snd h
        simp at h5
      · rw [if_neg hfo] at h
        have hok2 : (runLoop cfg b rest m).2 = none := by rw [h]
        have hres : (runLoop cfg b rest m).1 = m2 := by rw [h]
        have hihrest := ih b b2 m m2 h hsepR hpw2
        have hfr2 : getPath (splitPath ft.From) m2 = getPath (splitPath ft.From) m := by
          have h4 := runLoop_frame cfg b rest m (splitPath ft.From) hok2
            (fun x hx => hfromsep x (List.mem_cons_of_mem ft hx))
          rw [hres] at h4
          exact h4
        have hputp : ∀ v : Value,
            (putPath (splitPath (resolveTo ft)) v m2).isSome =
            (putPath (splitPath (resolveTo ft)) v m).isSome := by
          intro v
          have h4 := runLoop_put_frame cfg b rest m (splitPath (resolveTo ft)) v hok2
            (fun x hx => hpw1 x hx)
          rw [hres] at h4
          exact h4
        obtain ⟨e2, hpf2⟩ := parseField_err_transport cfg ft m m2 e hfr2 hputp hpf
        rw [runLoop]
        simp only [hpf2]
        rw [if_neg hfo]
        exact hihrest

theorem runLoop_allOk (cfg : UrlParseConfig) (b : MapStr) :
    ∀ (L : List FromTo) (m : MapStr),
      (∀ ft ∈ L, ∃ s u, getPath (splitPath ft.From) m = Except.ok (Value.str s) ∧
          urlParse s = Except.ok u ∧
          (putPath (splitPath (resolveTo ft)) (urlComponents u) m).isSome = true) →
      (∀ a ∈ L, ∀ c ∈ L, pathsOverlap (splitPath (resolveTo a)) (splitPath c.From) = false) →
      List.Pairwise (fun a c =>
        pathsOverlap (splitPath (resolveTo a)) (splitPath (resolveTo c)) = false) L →
      (runLoop cfg b L m).2 = none ∧
      (∀ ft ∈ L, ∃ s u, getPath (splitPath ft.From) m = Except.ok (Value.str s) ∧
          urlParse s = Except.ok u ∧
          getPath (splitPath (resolveTo ft)) (runLoop cfg b L m).1 = Except.ok (urlComponents u)) ∧
      (∀ p, (∀ ft ∈ L, pathsOverlap p (splitPath (resolveTo ft)) = false) →
          getPath p (runLoop cfg b L m).1 = getPath p m) := by
  intro L
  induction L with
  | nil =>
    intro m _ _ _
    exact ⟨by simp [runLoop], by simp, fun p _ => by simp [runLoop]⟩
  | cons ft rest ih =>
    intro m hsrc hsep hpw
    rw [List.pairwise_cons] at hpw
    obtain ⟨hpw1, hpw2⟩ := hpw
    obtain ⟨s, u, hgs, hu, hps⟩ := hsrc ft (List.mem_cons_self ft rest)
    obtain ⟨f2, hput⟩ := Option.isSome_iff_exists.mp hps
    have hpf : parseField cfg ft.From ft.To m = Except.ok f2 :=
      parseField_write_eval cfg ft.From ft.To m f2 s u hgs hu hput
    have hsrc2 : ∀ x ∈ rest, ∃ s2 u2,
        getPath (splitPath x.From) f2 = Except.ok (Value.str s2) ∧
        urlParse s2 = Except.ok u2 ∧
        (putPath (splitPath (resolveTo x)) (urlComponents u2) f2).isSome = true := by
      intro x hx
      obtain ⟨s2, u2, hg2, hu2, hp2⟩ := hsrc x (List.mem_cons_of_mem ft hx)
      have hd : pathsOverlap (splitPath x.From) (splitPath (resolveTo ft)) = false := by
        rw [pathsOverlap_symm]
        exact hsep ft (List.mem_cons_self ft rest) x (List.mem_cons_of_mem ft hx)
      have hd2 : pathsOverlap (splitPath (resolveTo x)) (splitPath (resolveTo ft)) = false := by
        rw [pathsOverlap_symm]
        exact hpw1 x hx
      refine ⟨s2, u2, ?_, hu2, ?_⟩
      · rw [getPath_putPath_disjoint (splitPath (resolveTo ft)) (splitPath x.From)
          (urlComponents u) m f2 hd hput]
        exact hg2
      · rw [putPath_putPath_disjoint_isSome (splitPath (resolveTo ft)) (splitPath (resolveTo x))
          (urlComponents u) (urlComponents u2) m f2 hd2 hput]
        exact hp2
    have hsepR : ∀ a ∈ rest, ∀ c ∈ rest,
        pathsOverlap (splitPath (resolveTo a)) (splitPath c.From) = false :=
      fun a ha c hc => hsep a (List.mem_cons_of_mem ft ha) c (List.mem_cons_of_mem ft hc)
    obtain ⟨IH1, IH2, IH3⟩ := ih f2 hsrc2 hsepR hpw2
    have hstep : runLoop cfg b (ft :: rest) m = runLoop cfg b rest f2 := by
      rw [runLoop]; simp only [hpf]
    rw [hstep]
    refine ⟨IH1, ?_, ?_⟩
    · intro x hx
      rcases List.mem_cons.mp hx with hxx | hx2
      · subst hxx
        refine ⟨s, u, hgs, hu, ?_⟩
        rw [IH3 (splitPath (resolveTo x)) (fun c hc => hpw1 c hc)]
        exact getPath_putPath_self _ (urlComponents u) m f2 hput
      · obtain ⟨s2, u2, hg2, hu2, hto2⟩ := IH2 x hx2
        have hd : pathsOverlap (splitPath x.From) (splitPath (resolveTo ft)) = false := by
          rw [pathsOverlap_symm]
          exact hsep ft (List.mem_cons_self ft rest) x (List.mem_cons_of_mem ft hx2)
        have hgm : getPath (splitPath x.From) m = Except.ok (Value.str s2) := by
          rw [← getPath_putPath_disjoint (splitPath (resolveTo ft)) (splitPath x.From)
            (urlComponents u) m f2 hd hput]
          exact hg2
        exact ⟨s2, u2, hgm, hu2, hto2⟩
    · intro p hdisj
      rw [IH3 p (fun c hc => hdisj c (List.mem_cons_of_mem ft hc))]
      exact getPath_putPath_disjoint _ p (urlComponents u) m f2
        (hdisj ft (List.mem_cons_self ft rest)) hput

/-! ### The claims -/

/-- C1 (amended): for every plan with `fail_on_error` true, whenever `Run`
returns an error, the returned fields are the input fields restored from
the backup with the `error.message` diagnostic attached when that path is
structurally writable (when attaching fails, the write error is ignored
and the fields are exactly the input's); the originating error of the
failing mapping is returned and no later mapping's write survives. -/
theorem run_strict_rollback_and_diagnostic (cfg : UrlParseConfig) (ev res : MapStr)
    (e : FieldError) (hfo : cfg.FailOnError = true) (h : run cfg ev = (res, some e)) :
    res = putIgnoreErr "error.message" (Value.str (runErrMsg e)) ev :=
  runLoop_err cfg ev cfg.Fields ev res e hfo h

/-- Witness for C1: a missing source field under `fail_on_error` rolls the
event back to the (empty) input and attaches the diagnostic. -/
theorem run_strict_rollback_and_diagnostic_witness :
    [("error", Value.map [("message", Value.str
        "failed to parse fields in urlparse processor: could not fetch value for key: request")])] =
      putIgnoreErr "error.message" (Value.str (runErrMsg
        (FieldError.fetchFail "request" GetErr.keyNotFound))) [] :=
  run_strict_rollback_and_diagnostic
    { Fields := [{ From := "request", To := "" }], IgnoreMissing := false, FailOnError := true }
    [] _ (FieldError.fetchFail "request" GetErr.keyNotFound) rfl rfl

/-- Counterexample to C1 as stated: with `fail_on_error` true and the
event `{request: 42, error: "boom"}`, the failing mapping surfaces its
error, but no `error.message` field is added — writing the diagnostic
through the non-mapping value at `error` fails and the write error is
ignored — so the returned fields are not "the input plus an added
`error.message`": they are exactly the input. -/
theorem run_strict_error_message_not_always_added :
    run { Fields := [{ From := "request", To := "" }], IgnoreMissing := false, FailOnError := true }
      [("request", Value.int 42), ("error", Value.str "boom")] =
    ([("request", Value.int 42), ("error", Value.str "boom")], some FieldError.typeMismatch) ∧
    getPath (splitPath "error.message")
      [("request", Value.int 42), ("error", Value.str "boom")] = Except.error GetErr.notAMap :=
  ⟨rfl, rfl⟩

/-- C3: for every plan with `fail_on_error` false, `Run` returns no error
and the resulting event is exactly the best-effort fold: every mapping
that fails is skipped with the fields left as they were, every mapping
that succeeds is applied, in configured order; the error-diagnostic path
(which alone writes `error.message`) is never taken. -/
theorem run_bestEffort_mode (cfg : UrlParseConfig) (ev : MapStr)
    (hfo : cfg.FailOnError = false) :
    run cfg ev = (bestEffort cfg cfg.Fields ev, none) :=
  runLoop_bestEffort cfg ev hfo cfg.Fields ev

/-- Witness for C3 at a failing mapping: the wrong-typed source is
skipped, the event is unchanged and no error is surfaced. -/
theorem run_bestEffort_mode_witness :
    run { Fields := [{ From := "request", To := "" }], IgnoreMissing := false, FailOnError := false }
      [("request", Value.int 42)] =
    (bestEffort
      { Fields := [{ From := "request", To := "" }], IgnoreMissing := false, FailOnError := false }
      [{ From := "request", To := "" }] [("request", Value.int 42)], none) :=
  run_bestEffort_mode
    { Fields := [{ From := "request", To := "" }], IgnoreMissing := false, FailOnError := false }
    [("request", Value.int 42)] rfl

/-- C4: the scenario event `{request: "https://example.com:8443/a/b?x=1#frag"}`
with the single mapping from=`request`, to=`request`: `Run` succeeds and
`request` afterwards holds exactly the expected eight components. -/
theorem run_scenario_request_decomposition :
    run { Fields := [{ From := "request", To := "request" }], IgnoreMissing := false,
          FailOnError := true }
      [("request", Value.str "https://example.com:8443/a/b?x=1#frag")] =
    ([("request", Value.map [
        ("scheme", Value.str "https"),
        ("opaque", Value.str ""),
        ("hostname", Value.str "example.com"),
        ("port", Value.str "8443"),
        ("path", Value.str "/a/b"),
        ("raw_path", Value.str ""),
        ("raw_query", Value.str "x=1"),
        ("fragment", Value.str "frag")])], none) := rfl

/-- C5: with `ignore_missing` true, a mapping whose `from` path is absent
(key not found) is a silent no-op: the loop state is unchanged, nothing
is written, no error is recorded — so no rollback or early return can be
triggered, whatever `fail_on_error` is — and processing continues with
the remaining mappings. -/
theorem run_ignoreMissing_silent_noop (cfg : UrlParseConfig) (b m : MapStr) (ft : FromTo)
    (rest : List FromTo) (him : cfg.IgnoreMissing = true)
    (hmiss : getPath (splitPath ft.From) m = Except.error GetErr.keyNotFound) :
    runLoop cfg b (ft :: rest) m = runLoop cfg b rest m := by
  rw [runLoop]
  simp only [parseField_skip cfg ft.From ft.To m him hmiss]

/-- Witness for C5: a missing field with `ignore_missing` and
`fail_on_error` both true is simply dropped from the loop. -/
theorem run_ignoreMissing_silent_noop_witness :
    runLoop { Fields := [], IgnoreMissing := true, FailOnError := true } []
      [{ From := "missing", To := "" }] [] =
    runLoop { Fields := [], IgnoreMissing := true, FailOnError := true } [] [] [] :=
  run_ignoreMissing_silent_noop
    { Fields := [], IgnoreMissing := true, FailOnError := true }
    [] [] { From := "missing", To := "" } [] rfl rfl

/-- C6: the scenario event `{request: 42}` (source present but not a
string) under `fail_on_error` false: `Run` returns the event unchanged,
surfaces no error, and the event carries no `error.message`. -/
theorem run_wrong_type_bestEffort_unchanged :
    run { Fields := [{ From := "request", To := "" }], IgnoreMissing := false, FailOnError := false }
      [("request", Value.int 42)] = ([("request", Value.int 42)], none) ∧
    getPath (splitPath "error.message") [("request", Value.int 42)] =
      Except.error GetErr.keyNotFound :=
  ⟨rfl, rfl⟩

/-- C2 (amended): with `fail_on_error` true, if in the input event every
mapping's `from` field holds a parseable URL string, and additionally no
resolved `to` path overlaps (equals, extends or is extended by) any
mapping's `from` path, distinct mappings' resolved `to` paths do not
overlap, and each decomposition is structurally writable at its resolved
`to` path, then `Run` returns no error, every resolved `to` path holds
the eight-key component mapping, and every path disjoint from all
resolved `to` paths reads the same as in the input. -/
theorem run_all_sources_parseable_sep (cfg : UrlParseConfig) (ev : MapStr)
    (hfo : cfg.FailOnError = true)
    (hsrc : ∀ ft ∈ cfg.Fields, ∃ s u,
        getPath (splitPath ft.From) ev = Except.ok (Value.str s) ∧
        urlParse s = Except.ok u ∧
        (putPath (splitPath (resolveTo ft)) (urlComponents u) ev).isSome = true)
    (hsep : ∀ a ∈ cfg.Fields, ∀ c ∈ cfg.Fields,
        pathsOverlap (splitPath (resolveTo a)) (splitPath c.From) = false)
    (hpw : List.Pairwise (fun a c =>
        pathsOverlap (splitPath (resolveTo a)) (splitPath (resolveTo c)) = false) cfg.Fields) :
    (run cfg ev).2 = none ∧
    (∀ ft ∈ cfg.Fields, ∃ u,
        getPath (splitPath (resolveTo ft)) (run cfg ev).1 = Except.ok (urlComponents u)) ∧
    (∀ p, (∀ ft ∈ cfg.Fields, pathsOverlap p (splitPath (resolveTo ft)) = false) →
        getPath p (run cfg ev).1 = getPath p ev) := by
  obtain ⟨h1, h2, h3⟩ := runLoop_allOk cfg ev cfg.Fields ev hsrc hsep hpw
  refine ⟨h1, ?_, h3⟩
  intro ft hft
  obtain ⟨s, u, -, -, hto⟩ := h2 ft hft
  exact ⟨u, hto⟩

/-- Witness for C2: one mapping from `src` to the disjoint path `dst`,
source parseable — the run succeeds. -/
theorem run_all_sources_parseable_sep_witness :
    (run { Fields := [{ From := "src", To := "dst" }], IgnoreMissing := false, FailOnError := true }
      [("src", Value.str "https://example.com:8443/a/b?x=1#frag")]).2 = none :=
  (run_all_sources_parseable_sep
    { Fields := [{ From := "src", To := "dst" }], IgnoreMissing := false, FailOnError := true }
    [("src", Value.str "https://example.com:8443/a/b?x=1#frag")]
    rfl
    (by
      intro ft hft
      rw [List.mem_singleton] at hft
      subst hft
      exact ⟨"https://example.com:8443/a/b?x=1#frag",
        { scheme := "https", opq := "", host := "example.com:8443",
          path := "/a/b", rawPath := "", rawQuery := "x=1", fragment := "frag" },
        rfl, rfl, rfl⟩)
    (by
      intro a ha c hc
      rw [List.mem_singleton] at ha hc
      subst ha; subst hc
      rfl)
    (by simp)).1

/-- Counterexample to C2 as stated: both sources are present and hold
parseable URL strings in the input, yet the run errors — the first
mapping overwrites `b` with the component mapping, so the second
mapping's source is no longer a string. -/
theorem run_all_sources_parseable_counterexample :
    getPath (splitPath "a") [("a", Value.str "x"), ("b", Value.str "y")] =
      Except.ok (Value.str "x") ∧
    getPath (splitPath "b") [("a", Value.str "x"), ("b", Value.str "y")] =
      Except.ok (Value.str "y") ∧
    urlParse "x" =
      Except.ok { scheme := "", opq := "", host := "", path := "x",
                  rawPath := "", rawQuery := "", fragment := "" } ∧
    urlParse "y" =
      Except.ok { scheme := "", opq := "", host := "", path := "y",
                  rawPath := "", rawQuery := "", fragment := "" } ∧
    (run { Fields := [{ From := "a", To := "b" }, { From := "b", To := "c" }],
           IgnoreMissing := false, FailOnError := true }
      [("a", Value.str "x"), ("b", Value.str "y")]).2 = some FieldError.typeMismatch :=
  ⟨rfl, rfl, rfl, rfl, rfl⟩

/-- C8 (amended): idempotence holds for separated plans — no resolved
`to` path overlaps any mapping's `from` path and distinct mappings'
resolved `to` paths do not overlap: if one application of `Run`
succeeds, applying `Run` again to the resulting event succeeds and
returns that event unchanged. -/
theorem run_idempotent_separated (cfg : UrlParseConfig) (ev ev1 : MapStr)
    (hsep : ∀ a ∈ cfg.Fields, ∀ c ∈ cfg.Fields,
        pathsOverlap (splitPath (resolveTo a)) (splitPath c.From) = false)
    (hpw : List.Pairwise (fun a c =>
        pathsOverlap (splitPath (resolveTo a)) (splitPath (resolveTo c)) = false) cfg.Fields)
    (h : run cfg ev = (ev1, none)) :
    run cfg ev1 = (ev1, none) :=
  runLoop_replay cfg cfg.Fields ev ev1 ev ev1 h hsep hpw

/-- Witness for C8: after the separated mapping from `src` to `dst` has
run once, running it again leaves the event exactly as it is. -/
theorem run_idempotent_separated_witness :
    run { Fields := [{ From := "src", To := "dst" }], IgnoreMissing := false, FailOnError := true }
      [("src", Value.str "http://h/p"),
       ("dst", urlComponents
                 { scheme := "http", opq := "", host := "h", path := "/p",
                   rawPath := "", rawQuery := "", fragment := "" })] =
    ([("src", Value.str "http://h/p"),
      ("dst", urlComponents
                { scheme := "http", opq := "", host := "h", path := "/p",
                  rawPath := "", rawQuery := "", fragment := "" })], none) :=
  run_idempotent_separated
    { Fields := [{ From := "src", To := "dst" }], IgnoreMissing := false, FailOnError := true }
    [("src", Value.str "http://h/p")]
    [("src", Value.str "http://h/p"),
     ("dst", urlComponents
               { scheme := "http", opq := "", host := "h", path := "/p",
                 rawPath := "", rawQuery := "", fragment := "" })]
    (by
      intro a ha c hc
      rw [List.mem_singleton] at ha hc
      subst ha; subst hc
      rfl)
    (by simp)
    rfl

/-- Counterexample to C8 as stated: the scenario plan maps `request` onto
itself; the first application succeeds, but the second application reads
the component mapping it wrote, fails with a type error, and returns a
different event (it now carries `error.message`, and an error). -/
theorem run_idempotent_counterexample :
    (run { Fields := [{ From := "request", To := "request" }], IgnoreMissing := false,
           FailOnError := true }
      [("request", Value.str "https://example.com:8443/a/b?x=1#frag")]).2 = none ∧
    (run { Fields := [{ From := "request", To := "request" }], IgnoreMissing := false,
           FailOnError := true }
      (run { Fields := [{ From := "request", To := "request" }], IgnoreMissing := false,
             FailOnError := true }
        [("request", Value.str "https://example.com:8443/a/b?x=1#frag")]).1).2 =
      some FieldError.typeMismatch ∧
    (run { Fields := [{ From := "request", To := "request" }], IgnoreMissing := false,
           FailOnError := true }
      (run { Fields := [{ From := "request", To := "request" }], IgnoreMissing := false,
             FailOnError := true }
        [("request", Value.str "https://example.com:8443/a/b?x=1#frag")]).1).1 ≠
    (run { Fields := [{ From := "request", To := "request" }], IgnoreMissing := false,
           FailOnError := true }
      [("request", Value.str "https://example.com:8443/a/b?x=1#frag")]).1 := by
  refine ⟨rfl, rfl, fun h => ?_⟩
  have h2 := congrArg (getPath (splitPath "error.message")) h
  have h3 : getPath (splitPath "error.message")
      (run { Fields := [{ From := "request", To := "request" }], IgnoreMissing := false,
             FailOnError := true }
        (run { Fields := [{ From := "request", To := "request" }], IgnoreMissing := false,
               FailOnError := true }
          [("request", Value.str "https://example.com:8443/a/b?x=1#frag")]).1).1 =
      Except.ok (Value.str (runErrMsg FieldError.typeMismatch)) := rfl
  have h4 : getPath (splitPath "error.message")
      (run { Fields := [{ From := "request", To := "request" }], IgnoreMissing := false,
             FailOnError := true }
        [("request", Value.str "https://example.com:8443/a/b?x=1#frag")]).1 =
      Except.error GetErr.keyNotFound := rfl
  rw [h3, h4] at h2
  exact Except.noConfusion h2

/-- C9: even with `ignore_missing` true, only the key-not-found failure
is skipped; a `from` lookup that fails because a path segment traverses
a non-mapping value is an error of this mapping, and under
`fail_on_error` it rolls back, attaches the diagnostic and stops. -/
theorem parseField_notAMap_not_ignored (cfg : UrlParseConfig) (b m : MapStr) (ft : FromTo)
    (rest : List FromTo) (him : cfg.IgnoreMissing = true)
    (h : getPath (splitPath ft.From) m = Except.error GetErr.notAMap) :
    parseField cfg ft.From ft.To m =
      Except.error (FieldError.fetchFail ft.From GetErr.notAMap) ∧
    (cfg.FailOnError = true →
      runLoop cfg b (ft :: rest) m =
        (putIgnoreErr "error.message" (Value.str (runErrMsg
            (FieldError.fetchFail ft.From GetErr.notAMap))) b,
         some (FieldError.fetchFail ft.From GetErr.notAMap))) := by
  have h1 : parseField cfg ft.From ft.To m =
      Except.error (FieldError.fetchFail ft.From GetErr.notAMap) := by
    unfold parseField
    simp [h]
  refine ⟨h1, fun hfo => ?_⟩
  rw [runLoop]
  simp only [h1, hfo, if_true]

/-- Witness for C9: looking up `a.b` through the string at `a` is not
ignored despite `ignore_missing`. -/
theorem parseField_notAMap_not_ignored_witness :
    parseField { Fields := [], IgnoreMissing := true, FailOnError := true } "a.b" ""
      [("a", Value.str "x")] =
    Except.error (FieldError.fetchFail "a.b" GetErr.notAMap) :=
  (parseField_notAMap_not_ignored
    { Fields := [], IgnoreMissing := true, FailOnError := true }
    [] [("a", Value.str "x")] { From := "a.b", To := "" } [] rfl rfl).1

/-- C10 (amended): a `from` field holding the empty string parses without
error — all eight components empty — and, provided the resolved `to`
path is structurally writable, the mapping succeeds and writes the
all-empty component mapping there. -/
theorem parseField_empty_url_string (cfg : UrlParseConfig) (frm tgt : String) (m m2 : MapStr)
    (hg : getPath (splitPath frm) m = Except.ok (Value.str ""))
    (hw : putPath (splitPath (if tgt = "" then frm else tgt))
        (urlComponents emptyGoURL) m = some m2) :
    urlParse "" = Except.ok emptyGoURL ∧
    urlComponents emptyGoURL = Value.map [("scheme", Value.str ""), ("opaque", Value.str ""),
      ("hostname", Value.str ""), ("port", Value.str ""), ("path", Value.str ""),
      ("raw_path", Value.str ""), ("raw_query", Value.str ""), ("fragment", Value.str "")] ∧
    parseField cfg frm tgt m = Except.ok m2 ∧
    getPath (splitPath (if tgt = "" then frm else tgt)) m2 =
      Except.ok (urlComponents emptyGoURL) := by
  refine ⟨rfl, rfl, ?_, ?_⟩
  · exact parseField_write_eval cfg frm tgt m m2 "" emptyGoURL hg rfl hw
  · exact getPath_putPath_self _ (urlComponents emptyGoURL) m m2 hw

/-- Witness for C10: the empty string at `u` is decomposed into the
all-empty component mapping at `v`. -/
theorem parseField_empty_url_string_witness :
    parseField { Fields := [], IgnoreMissing := false, FailOnError := true } "u" "v"
      [("u", Value.str "")] =
    Except.ok [("u", Value.str ""), ("v", urlComponents emptyGoURL)] :=
  (parseField_empty_url_string
    { Fields := [], IgnoreMissing := false, FailOnError := true }
    "u" "v" [("u", Value.str "")]
    [("u", Value.str ""), ("v", urlComponents emptyGoURL)] rfl rfl).2.2.1

/-- Counterexample to C10 as stated: the `from` field holds the empty
string, yet the mapping fails — its resolved `to` path `b.c` traverses
the string at `b`, so the write is structurally impossible. -/
theorem parseField_empty_url_string_counterexample :
    parseField { Fields := [], IgnoreMissing := false, FailOnError := true } "a" "b.c"
      [("a", Value.str ""), ("b", Value.str "z")] =
    Except.error (FieldError.putFail "b.c") := rfl

/-- C7: construction succeeds exactly when every raw key is recognized
(`fields`, `ignore_missing`, `fail_on_error`), the `fields` option is
present and non-empty, and every entry carries `from`; on success
`ignore_missing` defaults to false and `fail_on_error` defaults to
true. -/
theorem newProcessor_spec (c : RawConfig) :
    ((∃ p, newProcessor c = Except.ok p) ↔
      ((∀ k ∈ c.keys, k ∈ allowedKeys) ∧
        ∃ es, c.fieldsOpt = some es ∧ es ≠ [] ∧ ∀ e ∈ es, e.fromKey.isSome = true)) ∧
    (∀ p, newProcessor c = Except.ok p →
      p.IgnoreMissing = c.ignoreMissingOpt.getD false ∧
      p.FailOnError = c.failOnErrorOpt.getD true) := by
  unfold newProcessor
  by_cases hkeys : ∀ k ∈ c.keys, k ∈ allowedKeys
  · rw [if_neg (not_not_intro hkeys)]
    cases hf : c.fieldsOpt with
    | none =>
      refine ⟨⟨?_, ?_⟩, ?_⟩
      · rintro ⟨p, hp⟩
        exact absurd hp (by simp)
      · rintro ⟨-, es, hes, -, -⟩
        exact absurd hes (by simp)
      · intro p hp
        exact absurd hp (by simp)
    | some es =>
      cases es with
      | nil =>
        refine ⟨⟨?_, ?_⟩, ?_⟩
        · rintro ⟨p, hp⟩
          exact absurd hp (by simp)
        · rintro ⟨-, es2, hes, hne, -⟩
          rw [Option.some.injEq] at hes
          exact (hne hes.symm).elim
        · intro p hp
          exact absurd hp (by simp)
      | cons e0 es0 =>
        dsimp only
        by_cases hall : ∀ e ∈ e0 :: es0, e.fromKey.isSome = true
        · rw [if_pos hall]
          refine ⟨⟨?_, ?_⟩, ?_⟩
          · intro _
            exact ⟨hkeys, e0 :: es0, rfl, by simp, hall⟩
          · intro _
            exact ⟨_, rfl⟩
          · intro p hp
            rw [Except.ok.injEq] at hp
            subst hp
            exact ⟨rfl, rfl⟩
        · rw [if_neg hall]
          refine ⟨⟨?_, ?_⟩, ?_⟩
          · rintro ⟨p, hp⟩
            exact absurd hp (by simp)
          · rintro ⟨-, es2, hes, -, hallmem⟩
            rw [Option.some.injEq] at hes
            subst hes
            exact absurd hallmem hall
          · intro p hp
            exact absurd hp (by simp)
  · rw [if_pos hkeys]
    refine ⟨⟨?_, ?_⟩, ?_⟩
    · rintro ⟨p, hp⟩
      exact absurd hp (by simp)
    · rintro ⟨hk, -⟩
      exact absurd hk hkeys
    · intro p hp
      exact absurd hp (by simp)

/-- Witness for C7: a raw configuration carrying only `fields` with one
`from` entry yields a plan with `ignore_missing` false and
`fail_on_error` true. -/
theorem newProcessor_spec_witness :
    ({ Fields := [{ From := "request", To := "" }], IgnoreMissing := false,
       FailOnError := true } : UrlParseConfig).IgnoreMissing = false ∧
    ({ Fields := [{ From := "request", To := "" }], IgnoreMissing := false,
       FailOnError := true } : UrlParseConfig).FailOnError = true :=
  (newProcessor_spec
    { keys := ["fields"], fieldsOpt := some [{ fromKey := some "request", toKey := none }],
      ignoreMissingOpt := none, failOnErrorOpt := none }).2
    { Fields := [{ From := "request", To := "" }], IgnoreMissing := false, FailOnError := true }
    rfl
